import Mathlib

/-!
Verification development for `src/finetune_gpt2.py` (GLM fine-tuning utilities).

The Python source is shallowly embedded: the training loop `_train`
(lines 128-191) becomes a pure function from a configuration and the
checkpoint-recorded iteration to a final loop state together with a trace
of observable events (executed steps, skipped batches, interval-driven
logging / checkpointing / evaluation, end-of-epoch checkpoints and
callbacks).  Machine integers are `Nat` (Python ints are unbounded, so no
wrap-around modelling is needed); Python `None` becomes `Option`;
truthiness of an optional positive interval becomes "present and nonzero".
Floating-point loss accumulation (`total_lm_loss`) is out of scope of all
claims and is not part of the event trace.
-/

namespace FinetuneGPT2

/-- Source lines 139: `start_epoch = args.iteration // args.train_iters_per_epoch`. -/
def start_epoch (iteration train_iters_per_epoch : Nat) : Nat :=
  iteration / train_iters_per_epoch

/-- Source line 140: `start_iteration = args.iteration % args.train_iters_per_epoch`. -/
def start_iteration (iteration train_iters_per_epoch : Nat) : Nat :=
  iteration % train_iters_per_epoch

/-- Configuration fields of `args` consumed by `_train` (source lines 128-191).
`save` is the truthiness of `args.save` (a checkpoint directory is configured);
`save_interval` / `eval_interval` are optional, matching Python `None`;
`log_interval` is mandatory in the source (line 166 uses it unguarded).
`has_callback` is the truthiness of `end_of_epoch_callback`. -/
structure TrainConfig where
  epochs : Nat
  train_iters_per_epoch : Nat
  log_interval : Nat
  save : Bool
  save_interval : Option Nat
  eval_interval : Option Nat
  has_callback : Bool
deriving DecidableEq, Repr

/-- Mutable loop state of `_train`: `iteration` is `args.iteration`;
`startIteration` is the local `start_iteration` skip offset. -/
structure LoopState where
  iteration : Nat
  startIteration : Nat
deriving DecidableEq, Repr

/-- Observable actions of the training loop, in program order. -/
inductive TrainEvent where
  | trainStep (epoch iterIdx iteration : Nat)
  | skipBatch (epoch iterIdx : Nat)
  | logEvent (iteration : Nat)
  | saveEvent (iteration : Nat)
  | evalEvent (iteration : Nat)
  | epochSave (epoch iteration : Nat)
  | epochCallback (epoch : Nat)
deriving DecidableEq, Repr

/-- Python truthiness test `interval and iteration % interval == 0` for an
optional interval (`None` and `0` are both falsy). -/
def intervalTrigger (iteration : Nat) (interval : Option Nat) : Bool :=
  match interval with
  | none => false
  | some k => decide (k ≠ 0) && decide (iteration % k = 0)

/-- Source line 166: `args.iteration % args.log_interval == 0` (no presence guard). -/
def shouldLog (cfg : TrainConfig) (iteration : Nat) : Bool :=
  decide (iteration % cfg.log_interval = 0)

/-- Source line 176: `args.save and args.save_interval and args.iteration % args.save_interval == 0`. -/
def shouldSave (cfg : TrainConfig) (iteration : Nat) : Bool :=
  cfg.save && intervalTrigger iteration cfg.save_interval

/-- Source line 180: `args.eval_interval and args.iteration % args.eval_interval == 0`. -/
def shouldEval (cfg : TrainConfig) (iteration : Nat) : Bool :=
  intervalTrigger iteration cfg.eval_interval

/-- Interval-driven actions performed after one training step, in source order
(log, then checkpoint, then evaluation; lines 165-183). -/
def stepEvents (cfg : TrainConfig) (iteration : Nat) : List TrainEvent :=
  (if shouldLog cfg iteration then [TrainEvent.logEvent iteration] else [])
    ++ (if shouldSave cfg iteration then [TrainEvent.saveEvent iteration] else [])
    ++ (if shouldEval cfg iteration then [TrainEvent.evalEvent iteration] else [])

/-- Inner batch loop of one epoch (source lines 151-183): for each enumerated
batch index, either skip it (`iteration_ < start_iteration`, line 154) or reset
the skip offset to zero (line 157), run one step, increment `args.iteration`
(line 162) and perform the interval actions. -/
def runIters (cfg : TrainConfig) (epoch : Nat) :
    List Nat → LoopState → LoopState × List TrainEvent
  | [], st => (st, [])
  | i :: rest, st =>
    if i < st.startIteration then
      let r := runIters cfg epoch rest st
      (r.1, TrainEvent.skipBatch epoch i :: r.2)
    else
      let st1 : LoopState := ⟨st.iteration + 1, 0⟩
      let r := runIters cfg epoch rest st1
      (r.1, (TrainEvent.trainStep epoch i st1.iteration :: stepEvents cfg st1.iteration) ++ r.2)

/-- Epoch loop (source lines 144-191): run the epoch's batches, then the
end-of-epoch checkpoint (`if args.save:` line 186) and the end-of-epoch
callback (line 190). -/
def runEpochList (cfg : TrainConfig) :
    List Nat → LoopState → LoopState × List TrainEvent
  | [], st => (st, [])
  | e :: rest, st =>
    let r1 := runIters cfg e (List.range cfg.train_iters_per_epoch) st
    let boundary :=
      (if cfg.save then [TrainEvent.epochSave e r1.1.iteration] else [])
        ++ (if cfg.has_callback then [TrainEvent.epochCallback e] else [])
    let r2 := runEpochList cfg rest r1.1
    (r2.1, r1.2 ++ boundary ++ r2.2)

/-- The whole `_train` loop (source lines 128-191).  `checkpoint_iteration` is
the value `args.iteration` holds on entry (e.g. recorded by a prior
checkpoint); source line 136 (`args.iteration = 0`) overwrites it with zero
before the start position is computed, so it does not influence the run.
`range(start_epoch, args.epochs)` is `(List.range epochs).drop start_epoch`. -/
def trainRun (cfg : TrainConfig) (checkpoint_iteration : Nat) :
    LoopState × List TrainEvent :=
  let iteration := 0
  let se := start_epoch iteration cfg.train_iters_per_epoch
  let si := start_iteration iteration cfg.train_iters_per_epoch
  runEpochList cfg ((List.range cfg.epochs).drop se) ⟨iteration, si⟩

/-- Iterations at which the logging action fired, in trace order. -/
def logIterations (t : List TrainEvent) : List Nat :=
  t.filterMap fun e => match e with | TrainEvent.logEvent i => some i | _ => none

/-- Iterations at which the interval-driven checkpoint save fired. -/
def saveIterations (t : List TrainEvent) : List Nat :=
  t.filterMap fun e => match e with | TrainEvent.saveEvent i => some i | _ => none

/-- Iterations at which the evaluation action fired. -/
def evalIterations (t : List TrainEvent) : List Nat :=
  t.filterMap fun e => match e with | TrainEvent.evalEvent i => some i | _ => none

/-- `(epoch, iteration)` pairs of the forced end-of-epoch checkpoints. -/
def epochSavePairs (t : List TrainEvent) : List (Nat × Nat) :=
  t.filterMap fun e => match e with | TrainEvent.epochSave ep i => some (ep, i) | _ => none

/-- Skipped-batch events (batches consumed from the stream without a step). -/
def skipEvents (t : List TrainEvent) : List TrainEvent :=
  t.filter fun e => match e with | TrainEvent.skipBatch _ _ => true | _ => false

/-- The iteration at which an interval-driven action (log / save / eval)
fired, if the event is one. -/
def intervalEventIteration : TrainEvent → Option Nat
  | TrainEvent.logEvent i => some i
  | TrainEvent.saveEvent i => some i
  | TrainEvent.evalEvent i => some i
  | _ => none

/-! ### Infinite validation cycler (source lines 100-108)

`_build_infinite_size_dataloader` is a generator holding a current iterator
over the wrapped dataloader; `__next__` is tried, `StopIteration` is caught
and a fresh iterator is constructed.  We model the wrapped dataloader as the
list of elements a fresh iteration yields (the factory is deterministic, so
every reconstruction yields the same list) and one draw as a step on the
state "elements remaining in the current iterator". -/

/-- One draw from the cycler: yield the head of the current iterator; on
exhaustion (`StopIteration` caught, line 107) rebuild from the dataloader and
retry.  `none` models the only way no element is produced: the wrapped
dataloader itself is empty, in which case the Python generator loops forever
without yielding (it still raises nothing to the caller). -/
def cyclerNext {α : Type} (dataloader current : List α) : Option (α × List α) :=
  match current with
  | x :: rest => some (x, rest)
  | [] =>
    match dataloader with
    | x :: rest => some (x, rest)
    | [] => none

/-- Draw `k` elements from the cycler starting from iterator state `current`;
`none` if some draw produces no element (empty wrapped dataloader). -/
def cyclerDraw {α : Type} (dataloader : List α) : List α → Nat → Option (List α)
  | _, 0 => some []
  | current, k + 1 =>
    match cyclerNext dataloader current with
    | none => none
    | some (x, rest) => (cyclerDraw dataloader rest k).map (fun xs => x :: xs)

/-- Draw `k` elements from `_build_infinite_size_dataloader(dataloader)`:
the generator starts with a fresh iterator (line 103). -/
def infiniteDataloaderDraw {α : Type} (dataloader : List α) (k : Nat) : Option (List α) :=
  cyclerDraw dataloader dataloader k

/-! ### Checkpoint bridge (source lines 225-236)

The model handle may be `LocalDDP` / `TorchDDP` around an `FP16_Module`
around the raw task model, whose `.model` attribute holds the trainable
transformer (`load_checkpoint(module.model, ...)`, line 231).  `M` is the
type of that innermost module. -/

/-- A possibly wrapped model handle.  `taskModel m` is the raw task model
whose `.model` attribute is `m`. -/
inductive ModelHandle (M : Type) where
  | taskModel (model : M)
  | fp16Module (module : ModelHandle M)
  | localDDP (module : ModelHandle M)
  | torchDDP (module : ModelHandle M)
deriving DecidableEq, Repr

/-- Source lines 227-228: `if isinstance(module, (LocalDDP, TorchDDP)): module = module.module`. -/
def unwrapDDP {M : Type} : ModelHandle M → ModelHandle M
  | ModelHandle.localDDP m => m
  | ModelHandle.torchDDP m => m
  | h => h

/-- Source lines 229-230: `if isinstance(module, FP16_Module): module = module.module`. -/
def unwrapFP16 {M : Type} : ModelHandle M → ModelHandle M
  | ModelHandle.fp16Module m => m
  | h => h

/-- The resolved module: replication wrapper peeled first, precision wrapper
second (source lines 226-230). -/
def resolveTrainableModule {M : Type} (h : ModelHandle M) : ModelHandle M :=
  unwrapFP16 (unwrapDDP h)

/-- The `.model` attribute access of line 231: defined on the raw task model,
an `AttributeError` (`none`) on a still-wrapped handle. -/
def modelAttr {M : Type} : ModelHandle M → Option M
  | ModelHandle.taskModel m => some m
  | _ => none

/-- The module actually handed to `load_checkpoint` (line 231):
`module.model` of the resolved handle. -/
def loadCheckpointTarget {M : Type} (h : ModelHandle M) : Option M :=
  modelAttr (resolveTrainableModule h)

/-- Actions of the pretrained-checkpoint phase of `finetune`. -/
inductive CkptEvent where
  | loadCkpt
  | syncMasterParams
deriving DecidableEq, Repr

/-- Source lines 225-235: if `args.load is not None`, perform the checkpoint
load and then, if `args.fp16`, call `optimizer._model_params_to_master_params()`. -/
def pretrainedCheckpointPhase (load : Option String) (fp16 : Bool) : List CkptEvent :=
  match load with
  | none => []
  | some _ =>
    [CkptEvent.loadCkpt] ++ (if fp16 then [CkptEvent.syncMasterParams] else [])

/-! ### Sharded data stream builder (source lines 79-97)

`build_data_loader` wraps the dataset in
`torch.utils.data.distributed.DistributedSampler(dataset, num_replicas=W,
rank=r)` (defaults: `shuffle=True`, `drop_last=False`) and a `DataLoader`
with `batch_size` and `drop_last`.  The sampler draws a permutation of
`range(n)` from a generator seeded by the epoch seed; we take that
permutation (`perm`) as an explicit input, since the PRNG itself is an
external collaborator.  With sampler `drop_last=False` the permuted index
list is padded with its own prefix up to `total_size = ceil(n/W) * W`
(repeating the whole list if the padding exceeds its length) and replica `r`
receives positions `r, r+W, r+2W, ...`. -/

/-- `self.num_samples = math.ceil(len(dataset) / num_replicas)`. -/
def samplerNumSamples (n W : Nat) : Nat := (n + W - 1) / W

/-- `self.total_size = self.num_samples * self.num_replicas`. -/
def samplerTotalSize (n W : Nat) : Nat := samplerNumSamples n W * W

/-- The padded index list: `indices += indices[:padding_size]` when the
padding fits, else `indices += (indices * ceil(padding/len))[:padding_size]`. -/
def samplerPadded (perm : List Nat) (W : Nat) : List Nat :=
  let n := perm.length
  let padding := samplerTotalSize n W - n
  if padding ≤ n then perm ++ perm.take padding
  else perm ++ ((List.replicate ((padding + n - 1) / n) perm).flatten).take padding

/-- Replica `r`'s index sequence: `indices[rank : total_size : num_replicas]`. -/
def samplerShard (perm : List Nat) (W r : Nat) : List Nat :=
  (List.range (samplerNumSamples perm.length W)).map
    (fun i => (samplerPadded perm W).getD (r + i * W) 0)

/-- The indices replica `r` actually consumes from the `DataLoader`: with
`drop_last=True` the final incomplete batch of `batch_size` is dropped. -/
def loaderIndices (perm : List Nat) (W r batch_size : Nat) (drop_last : Bool) : List Nat :=
  let shard := samplerShard perm W r
  if drop_last then shard.take (shard.length / batch_size * batch_size) else shard

/-! ### Forward-step batch resolution (source lines 56-64)

`cross_entropy_forward_step` does `try: batch_ = next(batch) except
BaseException: batch_ = batch`.  We model the argument as either an iterator
(with its remaining elements) or a plain batch record; `next` on an
exhausted iterator raises `StopIteration`, `next` on a non-iterator raises
`TypeError`, and `except BaseException` catches both. -/

/-- The argument passed as `batch`: either an iterator over batch records or
a single batch record (`β`). -/
inductive BatchArg (β : Type) where
  | iterator (remaining : List β)
  | record (b : β)
deriving DecidableEq, Repr

/-- Exceptions `next(batch)` can raise. -/
inductive PyError where
  | stopIteration
  | typeError
deriving DecidableEq, Repr

/-- `next(batch)`: head of a non-empty iterator, `StopIteration` on an
exhausted one, `TypeError` on a non-iterator. -/
def nextDraw {β : Type} : BatchArg β → Except PyError β
  | BatchArg.iterator (x :: _) => Except.ok x
  | BatchArg.iterator [] => Except.error PyError.stopIteration
  | BatchArg.record _ => Except.error PyError.typeError

/-- What ends up in `batch_` (source lines 60-63): the drawn element, or —
any exception swallowed — the argument itself, as a value to be processed.
The result is `Except`-valued to show no error escapes this step. -/
def resolveBatch {β : Type} (batch : BatchArg β) : Except PyError (BatchArg β ⊕ β) :=
  match nextDraw batch with
  | Except.ok b => Except.ok (Sum.inr b)
  | Except.error _ => Except.ok (Sum.inl batch)

/-- Expected `(epoch, iteration)` pairs of the end-of-epoch checkpoints when
the loop runs the epochs `es` starting from iteration `it` with
`iters_per_epoch = N`. -/
def boundaryPairs (N : Nat) : List Nat → Nat → List (Nat × Nat)
  | [], _ => []
  | e :: rest, it => (e, it + N) :: boundaryPairs N rest (it + N)

/-! ## Helper lemmas about the training loop -/

lemma mem_stepEvents {cfg : TrainConfig} {n : Nat} {e : TrainEvent}
    (he : e ∈ stepEvents cfg n) :
    e = TrainEvent.logEvent n ∨ e = TrainEvent.saveEvent n
      ∨ e = TrainEvent.evalEvent n := by
  simp only [stepEvents, List.mem_append, List.mem_ite_nil_right,
    List.mem_singleton] at he
  tauto

lemma runIters_fst (cfg : TrainConfig) (ep : Nat) :
    ∀ (l : List Nat) (it : Nat),
      (runIters cfg ep l ⟨it, 0⟩).1 = ⟨it + l.length, 0⟩ := by
  intro l
  induction l with
  | nil => intro it; rfl
  | cons i rest ih =>
    intro it
    simp only [runIters, Nat.not_lt_zero, if_false, List.length_cons]
    rw [ih]
    simp [LoopState.mk.injEq]
    omega

lemma runIters_trace_sound (cfg : TrainConfig) (ep : Nat) :
    ∀ (l : List Nat) (it : Nat) (e : TrainEvent),
      e ∈ (runIters cfg ep l ⟨it, 0⟩).2 →
      (∃ i k, e = TrainEvent.trainStep ep i k ∧ it < k) ∨
      (∃ k, it < k ∧ e ∈ stepEvents cfg k) := by
  intro l
  induction l with
  | nil => intro it e he; simp [runIters] at he
  | cons i rest ih =>
    intro it e he
    simp only [runIters, Nat.not_lt_zero, if_false, List.cons_append,
      List.mem_cons, List.mem_append] at he
    rcases he with rfl | he | he
    · exact Or.inl ⟨i, it + 1, rfl, Nat.lt_succ_self it⟩
    · exact Or.inr ⟨it + 1, Nat.lt_succ_self it, he⟩
    · rcases ih (it + 1) e he with ⟨i', k, rfl, hk⟩ | ⟨k, hk, hmem⟩
      · exact Or.inl ⟨i', k, rfl, by omega⟩
      · exact Or.inr ⟨k, by omega, hmem⟩

lemma runEpochList_fst (cfg : TrainConfig) :
    ∀ (es : List Nat) (it : Nat),
      (runEpochList cfg es ⟨it, 0⟩).1
        = ⟨it + es.length * cfg.train_iters_per_epoch, 0⟩ := by
  intro es
  induction es with
  | nil => intro it; simp [runEpochList]
  | cons e rest ih =>
    intro it
    simp only [runEpochList]
    rw [runIters_fst, List.length_range, ih]
    simp [LoopState.mk.injEq]
    ring

lemma runEpochList_trace_sound (cfg : TrainConfig) :
    ∀ (es : List Nat) (it : Nat) (e : TrainEvent),
      e ∈ (runEpochList cfg es ⟨it, 0⟩).2 →
      (∃ ep i k, e = TrainEvent.trainStep ep i k ∧ it < k) ∨
      (∃ k, it < k ∧ e ∈ stepEvents cfg k) ∨
      (∃ ep k, e = TrainEvent.epochSave ep k) ∨
      (∃ ep, e = TrainEvent.epochCallback ep) := by
  intro es
  induction es with
  | nil => intro it e he; simp [runEpochList] at he
  | cons ep rest ih =>
    intro it e he
    simp only [runEpochList, runIters_fst, List.length_range, List.mem_append,
      List.mem_ite_nil_right, List.mem_singleton] at he
    rcases he with (he | he) | he
    · rcases runIters_trace_sound cfg ep _ it e he with ⟨i, k, rfl, hk⟩ | ⟨k, hk, hmem⟩
      · exact Or.inl ⟨ep, i, k, rfl, hk⟩
      · exact Or.inr (Or.inl ⟨k, hk, hmem⟩)
    · rcases he with ⟨_, rfl⟩ | ⟨_, rfl⟩
      · exact Or.inr (Or.inr (Or.inl ⟨ep, _, rfl⟩))
      · exact Or.inr (Or.inr (Or.inr ⟨ep, rfl⟩))
    · rcases ih (it + cfg.train_iters_per_epoch) e he with
        ⟨ep', i, k, rfl, hk⟩ | ⟨k, hk, hmem⟩ | h | h
      · exact Or.inl ⟨ep', i, k, rfl, by omega⟩
      · exact Or.inr (Or.inl ⟨k, by omega, hmem⟩)
      · exact Or.inr (Or.inr (Or.inl h))
      · exact Or.inr (Or.inr (Or.inr h))

lemma trainRun_eq (cfg : TrainConfig) (r : Nat) :
    trainRun cfg r = runEpochList cfg (List.range cfg.epochs) ⟨0, 0⟩ := by
  simp [trainRun, start_epoch, start_iteration, Nat.zero_div, Nat.zero_mod]

lemma trainRun_no_skip (cfg : TrainConfig) (r : Nat) :
    skipEvents (trainRun cfg r).2 = [] := by
  rw [trainRun_eq]
  unfold skipEvents
  rw [List.filter_eq_nil_iff]
  intro e he
  rcases runEpochList_trace_sound cfg _ 0 e he with
    ⟨_, _, _, rfl, _⟩ | ⟨k, _, hmem⟩ | ⟨_, _, rfl⟩ | ⟨_, rfl⟩
  · simp
  · rcases mem_stepEvents hmem with rfl | rfl | rfl <;> simp
  · simp
  · simp

lemma trainRun_interval_pos (cfg : TrainConfig) (r : Nat) (e : TrainEvent) (k : Nat)
    (he : e ∈ (trainRun cfg r).2) (hk : intervalEventIteration e = some k) :
    1 ≤ k := by
  rw [trainRun_eq] at he
  rcases runEpochList_trace_sound cfg _ 0 e he with
    ⟨_, _, _, rfl, _⟩ | ⟨k', hk', hmem⟩ | ⟨_, _, rfl⟩ | ⟨_, rfl⟩
  · simp [intervalEventIteration] at hk
  · rcases mem_stepEvents hmem with rfl | rfl | rfl <;>
      simp [intervalEventIteration] at hk <;> omega
  · simp [intervalEventIteration] at hk
  · simp [intervalEventIteration] at hk

lemma epochSavePairs_append (a b : List TrainEvent) :
    epochSavePairs (a ++ b) = epochSavePairs a ++ epochSavePairs b := by
  simp [epochSavePairs]

lemma epochSavePairs_runIters (cfg : TrainConfig) (ep : Nat) :
    ∀ (l : List Nat) (it : Nat),
      epochSavePairs (runIters cfg ep l ⟨it, 0⟩).2 = [] := by
  intro l it
  unfold epochSavePairs
  rw [List.filterMap_eq_nil_iff]
  intro e he
  rcases runIters_trace_sound cfg ep l it e he with ⟨_, _, rfl, _⟩ | ⟨k, _, hmem⟩
  · rfl
  · rcases mem_stepEvents hmem with rfl | rfl | rfl <;> rfl

lemma epochSavePairs_runEpochList (cfg : TrainConfig) (hsave : cfg.save = true) :
    ∀ (es : List Nat) (it : Nat),
      epochSavePairs (runEpochList cfg es ⟨it, 0⟩).2
        = boundaryPairs cfg.train_iters_per_epoch es it := by
  intro es
  induction es with
  | nil => intro it; rfl
  | cons e rest ih =>
    intro it
    simp only [runEpochList, runIters_fst, List.length_range, hsave, if_true]
    rw [epochSavePairs_append, epochSavePairs_append, epochSavePairs_runIters, ih]
    simp only [boundaryPairs]
    cases hcb : cfg.has_callback <;> simp [epochSavePairs, List.filterMap]

lemma boundaryPairs_append (N : Nat) :
    ∀ (l1 l2 : List Nat) (it : Nat),
      boundaryPairs N (l1 ++ l2) it
        = boundaryPairs N l1 it ++ boundaryPairs N l2 (it + l1.length * N) := by
  intro l1
  induction l1 with
  | nil => intro l2 it; simp [boundaryPairs]
  | cons e l1' ih =>
    intro l2 it
    simp only [List.cons_append, boundaryPairs, List.length_cons, List.append_eq]
    rw [ih]
    have h : it + N + l1'.length * N = it + (l1'.length + 1) * N := by ring
    rw [h]

lemma boundaryPairs_range (N : Nat) :
    ∀ (m : Nat),
      boundaryPairs N (List.range m) 0
        = (List.range m).map (fun e => (e, e * N + N)) := by
  intro m
  induction m with
  | zero => rfl
  | succ m ih =>
    rw [List.range_succ, boundaryPairs_append, ih, List.map_append]
    simp only [boundaryPairs, List.length_range, List.map_cons, List.map_nil,
      Nat.zero_add]

/-! ## Helper lemmas about the validation cycler -/

lemma cyclerDraw_nil_eq {α : Type} (l : List α) (k : Nat) :
    cyclerDraw l [] k = cyclerDraw l l k := by
  cases k with
  | zero => rfl
  | succ k => cases l with
    | nil => rfl
    | cons x r => rfl

lemma cyclerDraw_consume {α : Type} (l : List α) :
    ∀ (cur : List α) (k : Nat),
      cyclerDraw l cur (cur.length + k)
        = Option.map (fun xs => cur ++ xs) (cyclerDraw l [] k) := by
  intro cur
  induction cur with
  | nil =>
    intro k
    simp only [List.length_nil, Nat.zero_add, List.nil_append]
    cases cyclerDraw l [] k <;> rfl
  | cons x cs ih =>
    intro k
    have h1 : (x :: cs).length + k = (cs.length + k) + 1 := by
      simp [List.length_cons]; omega
    rw [h1]
    show (match cyclerNext l (x :: cs) with
      | none => none
      | some (y, rest) =>
        (cyclerDraw l rest (cs.length + k)).map (fun xs => y :: xs))
      = Option.map (fun xs => x :: cs ++ xs) (cyclerDraw l [] k)
    simp only [cyclerNext]
    rw [ih]
    cases cyclerDraw l [] k <;> simp

lemma infiniteDataloaderDraw_cycles {α : Type} (l : List α) :
    infiniteDataloaderDraw l (3 * l.length) = some (l ++ (l ++ l)) := by
  have h3 : 3 * l.length = l.length + (l.length + (l.length + 0)) := by ring
  unfold infiniteDataloaderDraw
  rw [h3, cyclerDraw_consume, cyclerDraw_nil_eq, cyclerDraw_consume,
    cyclerDraw_nil_eq, cyclerDraw_consume]
  simp [cyclerDraw]

/-! ## Helper lemmas about the distributed sampler -/

lemma samplerTotalSize_ge (n W : Nat) (hW : 1 ≤ W) : n ≤ samplerTotalSize n W := by
  unfold samplerTotalSize samplerNumSamples
  rcases Nat.eq_zero_or_pos n with rfl | hn
  · simp
  · have h1 : n + W - 1 = (n - 1) + W := by omega
    rw [h1, Nat.add_div_right _ hW]
    have h2 := Nat.mod_add_div' (n - 1) W
    have h3 : (n - 1) % W < W := Nat.mod_lt _ hW
    have h4 : ((n - 1) / W + 1) * W = (n - 1) / W * W + W := by ring
    omega

lemma samplerPad_lt (n W : Nat) (hW : 1 ≤ W) : samplerTotalSize n W - n < W := by
  have h1 : samplerTotalSize n W ≤ n + W - 1 := by
    unfold samplerTotalSize samplerNumSamples
    exact Nat.div_mul_le_self _ _
  omega

lemma samplerTotalSize_eq_of_dvd (n W : Nat) (hW : 1 ≤ W) (hd : W ∣ n) :
    samplerTotalSize n W = n := by
  obtain ⟨q, rfl⟩ := hd
  unfold samplerTotalSize samplerNumSamples
  rcases Nat.eq_zero_or_pos q with rfl | hq
  · simp [Nat.div_eq_of_lt (show W - 1 < W by omega)]
  · have h1 : W * q + W - 1 = (W - 1) + q * W := by
      rw [Nat.mul_comm]; omega
    rw [h1, Nat.add_mul_div_right _ _ hW, Nat.div_eq_of_lt (show W - 1 < W by omega)]
    rw [Nat.mul_comm]; ring

lemma samplerPadded_eq (perm : List Nat) (W : Nat) (hW : 1 ≤ W)
    (hWn : W ≤ perm.length) :
    samplerPadded perm W
      = perm ++ perm.take (samplerTotalSize perm.length W - perm.length) := by
  have hle : samplerTotalSize perm.length W - perm.length ≤ perm.length :=
    le_trans (le_of_lt (samplerPad_lt _ _ hW)) hWn
  simp only [samplerPadded]
  rw [if_pos hle]

lemma samplerPadded_length (perm : List Nat) (W : Nat) (hW : 1 ≤ W)
    (hWn : W ≤ perm.length) :
    (samplerPadded perm W).length = samplerTotalSize perm.length W := by
  rw [samplerPadded_eq perm W hW hWn]
  have h1 := samplerTotalSize_ge perm.length W hW
  have h2 : samplerTotalSize perm.length W - perm.length ≤ perm.length :=
    le_trans (le_of_lt (samplerPad_lt _ _ hW)) hWn
  simp [List.length_take]
  omega

lemma samplerShard_pos_bound {W i r : Nat} (q : Nat) (hr : r < W) (hi : i < q) :
    r + i * W < q * W := by
  have h1 : i + 1 ≤ q := hi
  calc r + i * W < W + i * W := by omega
    _ = (i + 1) * W := by ring
    _ ≤ q * W := Nat.mul_le_mul_right _ h1

lemma getD_mem_samplerShard (perm : List Nat) (W : Nat) (hW : 1 ≤ W)
    (p : Nat) (hp : p < samplerTotalSize perm.length W) :
    (samplerPadded perm W).getD p 0 ∈ samplerShard perm W (p % W) := by
  unfold samplerShard
  apply List.mem_map.2
  refine ⟨p / W, List.mem_range.2 ?_, ?_⟩
  · apply Nat.div_lt_of_lt_mul
    rw [Nat.mul_comm]
    exact hp
  · rw [Nat.mod_add_div']

lemma mem_of_mem_samplerShard (perm : List Nat) (W r : Nat) (hW : 1 ≤ W)
    (hWn : W ≤ perm.length) (hr : r < W) {x : Nat}
    (hx : x ∈ samplerShard perm W r) : x ∈ perm := by
  rcases List.mem_map.1 hx with ⟨i, hi, rfl⟩
  rw [List.mem_range] at hi
  have hpos : r + i * W < samplerTotalSize perm.length W := by
    unfold samplerTotalSize
    exact samplerShard_pos_bound _ hr hi
  have hlen : r + i * W < (samplerPadded perm W).length := by
    rw [samplerPadded_length perm W hW hWn]; exact hpos
  have hmem : (samplerPadded perm W).getD (r + i * W) 0 ∈ samplerPadded perm W := by
    rw [List.getD_eq_getElem?_getD, List.getElem?_eq_getElem hlen]
    exact List.getElem_mem hlen
  rw [samplerPadded_eq perm W hW hWn] at hmem ⊢
  rcases List.mem_append.1 hmem with h | h
  · exact h
  · exact List.mem_of_mem_take h

lemma exists_shard_of_mem (perm : List Nat) (W : Nat) (hW : 1 ≤ W)
    (hWn : W ≤ perm.length) {x : Nat} (hx : x ∈ perm) :
    ∃ r, r < W ∧ x ∈ samplerShard perm W r := by
  rcases List.mem_iff_getElem.1 hx with ⟨p, hp, rfl⟩
  refine ⟨p % W, Nat.mod_lt _ hW, ?_⟩
  have hptot : p < samplerTotalSize perm.length W :=
    lt_of_lt_of_le hp (samplerTotalSize_ge _ _ hW)
  have h := getD_mem_samplerShard perm W hW p hptot
  have hgd : (samplerPadded perm W).getD p 0 = perm[p] := by
    rw [samplerPadded_eq perm W hW hWn, List.getD_eq_getElem?_getD,
      List.getElem?_append_left hp, List.getElem?_eq_getElem hp]
    rfl
  rwa [hgd] at h

lemma samplerPadded_of_dvd (perm : List Nat) (W : Nat) (hW : 1 ≤ W)
    (hd : W ∣ perm.length) : samplerPadded perm W = perm := by
  have htot := samplerTotalSize_eq_of_dvd perm.length W hW hd
  simp only [samplerPadded]
  rw [if_pos (by omega), htot]
  simp

lemma shards_disjoint_of_dvd (perm : List Nat) (W : Nat) (hW : 1 ≤ W)
    (hnodup : perm.Nodup) (hd : W ∣ perm.length)
    {r1 r2 : Nat} (h1 : r1 < W) (h2 : r2 < W) (hne : r1 ≠ r2) {x : Nat}
    (hx1 : x ∈ samplerShard perm W r1) (hx2 : x ∈ samplerShard perm W r2) :
    False := by
  have hpad := samplerPadded_of_dvd perm W hW hd
  have htot := samplerTotalSize_eq_of_dvd perm.length W hW hd
  unfold samplerTotalSize at htot
  rcases List.mem_map.1 hx1 with ⟨i1, hi1, he1⟩
  rcases List.mem_map.1 hx2 with ⟨i2, hi2, he2⟩
  rw [List.mem_range] at hi1 hi2
  rw [hpad] at he1 he2
  have hp1 : r1 + i1 * W < perm.length := by
    have := samplerShard_pos_bound (samplerNumSamples perm.length W) h1 hi1
    omega
  have hp2 : r2 + i2 * W < perm.length := by
    have := samplerShard_pos_bound (samplerNumSamples perm.length W) h2 hi2
    omega
  have e1 : perm[r1 + i1 * W] = x := by
    rw [← he1, List.getD_eq_getElem?_getD, List.getElem?_eq_getElem hp1]
    rfl
  have e2 : perm[r2 + i2 * W] = x := by
    rw [← he2, List.getD_eq_getElem?_getD, List.getElem?_eq_getElem hp2]
    rfl
  have hpe : r1 + i1 * W = r2 + i2 * W :=
    (hnodup.getElem_inj_iff).1 (e1.trans e2.symm)
  apply hne
  have hm1 : (r1 + i1 * W) % W = r1 := by
    rw [Nat.add_mul_mod_self_right]; exact Nat.mod_eq_of_lt h1
  have hm2 : (r2 + i2 * W) % W = r2 := by
    rw [Nat.add_mul_mod_self_right]; exact Nat.mod_eq_of_lt h2
  rw [← hm1, ← hm2, hpe]

lemma shards_overlap_of_not_dvd (perm : List Nat) (W : Nat) (hW : 1 ≤ W)
    (hWn : W ≤ perm.length) (hnd : ¬ W ∣ perm.length) :
    ∃ x r1 r2, r1 < W ∧ r2 < W ∧ r1 ≠ r2 ∧
      x ∈ samplerShard perm W r1 ∧ x ∈ samplerShard perm W r2 := by
  have hn1 : 1 ≤ perm.length := le_trans hW hWn
  have hge := samplerTotalSize_ge perm.length W hW
  have hlt : perm.length < samplerTotalSize perm.length W := by
    rcases Nat.lt_or_ge perm.length (samplerTotalSize perm.length W) with h | h
    · exact h
    · exfalso
      have heqt : samplerTotalSize perm.length W = perm.length := le_antisymm h hge
      unfold samplerTotalSize at heqt
      exact hnd ⟨samplerNumSamples perm.length W,
        heqt.symm.trans (Nat.mul_comm _ _)⟩
  have heq : (samplerPadded perm W).getD perm.length 0
      = (samplerPadded perm W).getD 0 0 := by
    rw [samplerPadded_eq perm W hW hWn]
    rw [List.getD_eq_getElem?_getD, List.getD_eq_getElem?_getD]
    rw [List.getElem?_append_right (le_refl perm.length)]
    rw [List.getElem?_append_left hn1]
    rw [Nat.sub_self, List.getElem?_take, if_pos (by omega)]
  refine ⟨(samplerPadded perm W).getD 0 0, 0, perm.length % W, hW,
    Nat.mod_lt _ hW, ?_, ?_, ?_⟩
  · intro h
    exact (fun hh => hnd (Nat.dvd_of_mod_eq_zero hh)) h.symm
  · have := getD_mem_samplerShard perm W hW 0 (lt_of_lt_of_le hn1 hge)
    rwa [Nat.zero_mod] at this
  · have := getD_mem_samplerShard perm W hW perm.length hlt
    rwa [heq] at this

lemma loader_drop_bound (perm : List Nat) (W r batch_size : Nat)
    (hB : 1 ≤ batch_size) :
    (samplerShard perm W r).length
      ≤ (loaderIndices perm W r batch_size true).length + (batch_size - 1) := by
  simp only [loaderIndices, if_true]
  rw [List.length_take]
  have h3 : (samplerShard perm W r).length / batch_size * batch_size
      ≤ (samplerShard perm W r).length :=
    Nat.div_mul_le_self _ _
  rw [Nat.min_eq_left h3]
  conv_lhs => rw [← Nat.div_add_mod (samplerShard perm W r).length batch_size]
  have h2 : (samplerShard perm W r).length % batch_size ≤ batch_size - 1 :=
    Nat.le_pred_of_lt (Nat.mod_lt _ hB)
  calc batch_size * ((samplerShard perm W r).length / batch_size)
        + (samplerShard perm W r).length % batch_size
      ≤ batch_size * ((samplerShard perm W r).length / batch_size)
        + (batch_size - 1) := Nat.add_le_add_left h2 _
    _ = (samplerShard perm W r).length / batch_size * batch_size
        + (batch_size - 1) := by rw [Nat.mul_comm]

/-! ## Theorems -/

/-- C1: with `epochs = 2`, `iters_per_epoch = 5`, `log_interval = 2`,
`save_interval = 5`, `eval_interval = 10` and checkpointing enabled, the
10-step run logs exactly at iterations 2, 4, 6, 8, 10, interval-saves exactly
at iterations 5 and 10, forces one additional end-of-epoch checkpoint after
iterations 5 (epoch 0) and 10 (epoch 1), and evaluates exactly at
iteration 10. -/
theorem C1_end_to_end_schedule :
    logIterations (trainRun ⟨2, 5, 2, true, some 5, some 10, false⟩ 0).2
        = [2, 4, 6, 8, 10] ∧
    saveIterations (trainRun ⟨2, 5, 2, true, some 5, some 10, false⟩ 0).2
        = [5, 10] ∧
    epochSavePairs (trainRun ⟨2, 5, 2, true, some 5, some 10, false⟩ 0).2
        = [(0, 5), (1, 10)] ∧
    evalIterations (trainRun ⟨2, 5, 2, true, some 5, some 10, false⟩ 0).2
        = [10] := by
  decide

/-- C8: the resume-position computation of `_train` (lines 139-140) satisfies
`start_epoch * iters_per_epoch + start_intra_epoch_iteration = global_iteration`
for every `global_iteration` and every positive `iters_per_epoch`. -/
theorem C8_resume_position_identity (global_iteration iters_per_epoch : Nat)
    (h : 0 < iters_per_epoch) :
    start_epoch global_iteration iters_per_epoch * iters_per_epoch
      + start_iteration global_iteration iters_per_epoch = global_iteration := by
  unfold start_epoch start_iteration
  rw [Nat.mul_comm]
  exact Nat.div_add_mod global_iteration iters_per_epoch

/-- Witness for C8 at `global_iteration = 7`, `iters_per_epoch = 5`. -/
theorem C8_resume_position_identity_witness :
    0 < 5 ∧ start_epoch 7 5 * 5 + start_iteration 7 5 = 7 :=
  ⟨by decide, C8_resume_position_identity 7 5 (by decide)⟩

/-- C6: in `finetune` (lines 225-235), whenever a load path is configured the
checkpoint load happens, and the master-parameter resynchronisation hook
(`optimizer._model_params_to_master_params()`) is invoked right after it iff
reduced-precision mode (`args.fp16`) is enabled; without a load path nothing
happens. -/
theorem C6_master_param_resync (p : String) :
    pretrainedCheckpointPhase (some p) true
        = [CkptEvent.loadCkpt, CkptEvent.syncMasterParams] ∧
    pretrainedCheckpointPhase (some p) false = [CkptEvent.loadCkpt] ∧
    pretrainedCheckpointPhase none true = [] ∧
    pretrainedCheckpointPhase none false = [] :=
  ⟨rfl, rfl, rfl, rfl⟩

/-- C5: the checkpoint bridge (lines 225-231) unwraps replication wrapper
first and precision wrapper second: a handle
`replication-wrapper(precision-wrapper(raw))` resolves to exactly the raw
task model, an unwrapped handle resolves to itself unchanged, and in each of
these shapes `load_checkpoint` receives exactly the same innermost trainable
module — the raw task model's `.model` attribute. -/
theorem C5_checkpoint_bridge_unwrap {M : Type} (m : M) :
    resolveTrainableModule
        (ModelHandle.localDDP (ModelHandle.fp16Module (ModelHandle.taskModel m)))
        = ModelHandle.taskModel m ∧
    resolveTrainableModule
        (ModelHandle.torchDDP (ModelHandle.fp16Module (ModelHandle.taskModel m)))
        = ModelHandle.taskModel m ∧
    resolveTrainableModule (ModelHandle.taskModel (M := M) m)
        = ModelHandle.taskModel m ∧
    loadCheckpointTarget
        (ModelHandle.localDDP (ModelHandle.fp16Module (ModelHandle.taskModel m)))
        = some m ∧
    loadCheckpointTarget
        (ModelHandle.torchDDP (ModelHandle.fp16Module (ModelHandle.taskModel m)))
        = some m ∧
    loadCheckpointTarget (ModelHandle.taskModel (M := M) m) = some m :=
  ⟨rfl, rfl, rfl, rfl, rfl, rfl⟩

/-- C10: in `cross_entropy_forward_step` (lines 56-64), a successful
`next(batch)` yields the drawn element, any exception from the draw
(exhaustion of an iterator, or `next` on a non-iterator) is swallowed and
the argument itself becomes the processed batch record, and the
batch-drawing step never propagates an error. -/
theorem C10_forward_step_batch_swallow {β : Type} (batch : BatchArg β) :
    (∀ b, nextDraw batch = Except.ok b →
        resolveBatch batch = Except.ok (Sum.inr b)) ∧
    (∀ e, nextDraw batch = Except.error e →
        resolveBatch batch = Except.ok (Sum.inl batch)) ∧
    (∃ v, resolveBatch batch = Except.ok v) := by
  refine ⟨?_, ?_, ?_⟩
  · intro b hb; simp [resolveBatch, hb]
  · intro e he; simp [resolveBatch, he]
  · cases h : nextDraw batch with
    | ok b => exact ⟨Sum.inr b, by simp [resolveBatch, h]⟩
    | error e => exact ⟨Sum.inl batch, by simp [resolveBatch, h]⟩

/-- Witness for C10 at a raw batch record (a non-iterator argument). -/
theorem C10_forward_step_batch_swallow_witness :
    nextDraw (BatchArg.record (0 : Nat)) = Except.error PyError.typeError ∧
    resolveBatch (BatchArg.record (0 : Nat))
      = Except.ok (Sum.inl (BatchArg.record 0)) :=
  ⟨rfl, (C10_forward_step_batch_swallow (BatchArg.record 0)).2.1
      PyError.typeError rfl⟩

/-- C2 fails on the code: `_train` overwrites the checkpoint-recorded
iteration with 0 (line 136).  Starting the loop with a recorded
`global_iteration = 7` and `iters_per_epoch = 5`, the trace contains no
skipped batch at all and the first executed step is the first batch of
epoch 0 (not the third batch of epoch 1 as claimed). -/
theorem C2_counterexample :
    skipEvents (trainRun ⟨2, 5, 2, true, some 5, some 10, false⟩ 7).2 = [] ∧
    (trainRun ⟨2, 5, 2, true, some 5, some 10, false⟩ 7).2.head?
      = some (TrainEvent.trainStep 0 0 1) := by
  decide

/-- C3 fails on the code: the save decision (line 176) also reads `args.save`
(whether a checkpoint directory is configured), so it is not a function of
`(global_iteration, intervals)` alone: at iteration 5 with `save_interval`
set to 5, the trigger is false when checkpointing is disabled although the
claimed formula (interval set, and 5 mod 5 = 0) is true, while a config with
identical intervals but checkpointing enabled does trigger. -/
theorem C3_counterexample :
    (TrainConfig.mk 2 5 2 false (some 5) (some 10) false).save_interval
        = some 5 ∧
    5 % 5 = 0 ∧
    shouldSave (TrainConfig.mk 2 5 2 false (some 5) (some 10) false) 5
        = false ∧
    (TrainConfig.mk 2 5 2 true (some 5) (some 10) false).log_interval
        = (TrainConfig.mk 2 5 2 false (some 5) (some 10) false).log_interval ∧
    (TrainConfig.mk 2 5 2 true (some 5) (some 10) false).save_interval
        = (TrainConfig.mk 2 5 2 false (some 5) (some 10) false).save_interval ∧
    (TrainConfig.mk 2 5 2 true (some 5) (some 10) false).eval_interval
        = (TrainConfig.mk 2 5 2 false (some 5) (some 10) false).eval_interval ∧
    shouldSave (TrainConfig.mk 2 5 2 true (some 5) (some 10) false) 5
        = true := by
  decide

/-- C7 fails on the code: `torch.utils.data.distributed.DistributedSampler`
pads the permuted index list with its own prefix when the dataset size is
not divisible by the world size, so an index can be assigned to two
replicas.  With 3 elements permuted as `[2, 0, 1]` and world size 2, index 2
is consumed by both replica 0 and replica 1 (no tail dropping involved). -/
theorem C7_counterexample :
    ([2, 0, 1] : List Nat).Perm (List.range 3) ∧
    2 ∈ loaderIndices [2, 0, 1] 2 0 1 false ∧
    2 ∈ loaderIndices [2, 0, 1] 2 1 1 false ∧
    (0 : Nat) ≠ 1 := by
  decide

/-- C2 (amended): `_train` overwrites the checkpoint-recorded iteration with 0
(line 136), so the run is independent of the recorded value; the computed
start position is epoch 0 with intra-epoch offset 0; no batch is ever drawn
without a training step being executed for it; and in particular with a
checkpoint recorded at `global_iteration = 7` and `iters_per_epoch = 5` the
first executed step is the first batch of epoch 0 at iteration 1. -/
theorem C2_amended (cfg : TrainConfig) (r : Nat) :
    trainRun cfg r = trainRun cfg 0 ∧
    start_epoch 0 cfg.train_iters_per_epoch = 0 ∧
    start_iteration 0 cfg.train_iters_per_epoch = 0 ∧
    skipEvents (trainRun cfg r).2 = [] ∧
    (trainRun ⟨2, 5, 2, true, some 5, some 10, false⟩ 7).2.head?
      = some (TrainEvent.trainStep 0 0 1) := by
  refine ⟨rfl, ?_, ?_, trainRun_no_skip cfg r, by decide⟩
  · simp [start_epoch]
  · simp [start_iteration]

/-- C3 (amended): the interval decision is a pure function of the iteration,
the intervals, and the checkpointing-enabled flag: logging triggers iff the
iteration is a multiple of `log_interval`; saving triggers iff checkpointing
is enabled, `save_interval` is present (positive) and divides the iteration;
evaluation triggers iff `eval_interval` is present (positive) and divides the
iteration; an absent save/eval interval never triggers; and within the loop
no interval action ever fires at `global_iteration = 0` (the decision is only
consulted after the counter has been incremented). -/
theorem C3_amended (cfg : TrainConfig) (iteration : Nat) :
    shouldLog cfg iteration = decide (iteration % cfg.log_interval = 0) ∧
    (∀ k, cfg.save_interval = some k → 0 < k →
        shouldSave cfg iteration = (cfg.save && decide (iteration % k = 0))) ∧
    (cfg.save_interval = none → shouldSave cfg iteration = false) ∧
    (∀ k, cfg.eval_interval = some k → 0 < k →
        shouldEval cfg iteration = decide (iteration % k = 0)) ∧
    (cfg.eval_interval = none → shouldEval cfg iteration = false) ∧
    (∀ (r : Nat) (e : TrainEvent) (k : Nat),
        e ∈ (trainRun cfg r).2 → intervalEventIteration e = some k → 1 ≤ k) := by
  refine ⟨rfl, ?_, ?_, ?_, ?_, ?_⟩
  · intro k hk hkpos
    simp [shouldSave, intervalTrigger, hk, Nat.pos_iff_ne_zero.1 hkpos]
  · intro hk; simp [shouldSave, intervalTrigger, hk]
  · intro k hk hkpos
    simp [shouldEval, intervalTrigger, hk, Nat.pos_iff_ne_zero.1 hkpos]
  · intro hk; simp [shouldEval, intervalTrigger, hk]
  · intro r e k he hk
    exact trainRun_interval_pos cfg r e k he hk

/-- Witness for C3 (amended) at iteration 5 of the concrete configuration. -/
theorem C3_amended_witness :
    shouldSave ⟨2, 5, 2, true, some 5, some 10, false⟩ 5
      = (true && decide (5 % 5 = 0)) ∧
    shouldEval ⟨2, 5, 2, true, some 5, some 10, false⟩ 5
      = decide (5 % 10 = 0) :=
  ⟨(C3_amended ⟨2, 5, 2, true, some 5, some 10, false⟩ 5).2.1 5 rfl (by decide),
   (C3_amended ⟨2, 5, 2, true, some 5, some 10, false⟩ 5).2.2.2.1 10 rfl (by decide)⟩

/-- C9: starting from iteration 0, the loop increments the counter once per
batch, so the final iteration is `epochs * iters_per_epoch`, and the
end-of-epoch checkpoints (which record the iteration at every epoch
boundary) are exactly `(e, e * iters_per_epoch + iters_per_epoch)` for each
epoch `e` — the boundary invariant `global_iteration = epoch_index *
iters_per_epoch + intra_epoch_iteration` with a full intra-epoch count. -/
theorem C9_epoch_boundary_invariant (cfg : TrainConfig) (r : Nat) :
    (trainRun cfg r).1.iteration = cfg.epochs * cfg.train_iters_per_epoch ∧
    (cfg.save = true →
      epochSavePairs (trainRun cfg r).2
        = (List.range cfg.epochs).map
            (fun e => (e, e * cfg.train_iters_per_epoch
              + cfg.train_iters_per_epoch))) := by
  constructor
  · rw [trainRun_eq, runEpochList_fst, List.length_range]
    simp
  · intro hsave
    rw [trainRun_eq, epochSavePairs_runEpochList cfg hsave, boundaryPairs_range]

/-- Witness for C9 at the concrete two-epoch configuration. -/
theorem C9_epoch_boundary_invariant_witness :
    (trainRun ⟨2, 5, 2, true, some 5, some 10, false⟩ 0).1.iteration = 2 * 5 ∧
    epochSavePairs (trainRun ⟨2, 5, 2, true, some 5, some 10, false⟩ 0).2
      = (List.range 2).map (fun e => (e, e * 5 + 5)) :=
  ⟨(C9_epoch_boundary_invariant ⟨2, 5, 2, true, some 5, some 10, false⟩ 0).1,
   (C9_epoch_boundary_invariant ⟨2, 5, 2, true, some 5, some 10, false⟩ 0).2 rfl⟩

/-- C4: drawing `3 * n` elements from the infinite validation cycler over a
nonempty deterministic stream of length `n` always succeeds (no exhaustion
reaches the caller), yields exactly `3 * n` elements, and the second cycle
(elements `n+1 .. 2n`) equals the first cycle (elements `1 .. n`), which is
the wrapped stream itself. -/
theorem C4_infinite_cycler {α : Type} (l : List α) (h : 1 ≤ l.length) :
    ∃ xs, infiniteDataloaderDraw l (3 * l.length) = some xs ∧
      xs.length = 3 * l.length ∧
      (xs.drop l.length).take l.length = xs.take l.length ∧
      xs.take l.length = l := by
  refine ⟨l ++ (l ++ l), infiniteDataloaderDraw_cycles l, ?_, ?_, ?_⟩
  · simp; ring
  · rw [List.drop_left, List.take_left, List.take_left]
  · exact List.take_left l (l ++ l)

/-- Witness for C4 on the two-element stream `[10, 20]`. -/
theorem C4_infinite_cycler_witness :
    1 ≤ ([10, 20] : List Nat).length ∧
    (∃ xs, infiniteDataloaderDraw ([10, 20] : List Nat)
          (3 * ([10, 20] : List Nat).length) = some xs ∧
      xs.length = 3 * ([10, 20] : List Nat).length ∧
      (xs.drop ([10, 20] : List Nat).length).take ([10, 20] : List Nat).length
        = xs.take ([10, 20] : List Nat).length ∧
      xs.take ([10, 20] : List Nat).length = [10, 20]) :=
  ⟨by decide, C4_infinite_cycler [10, 20] (by decide)⟩

/-- C7 (amended): for a dataset of size `n` with `1 ≤ W ≤ n` replicas, the
union of all replicas' consumed indices is exactly the full index set when
the tail is kept; the shards are pairwise disjoint when `W` divides `n`, but
when it does not, the sampler's padding assigns at least one index to two
distinct replicas; and with tail dropping each replica loses at most
`batch_size - 1` of its assigned indices.  The whole construction is a pure
function of the sampler's permutation, hence deterministic in the epoch
seed. -/
theorem C7_amended (perm : List Nat) (n W batch_size r : Nat)
    (hn : perm.length = n) (hperm : perm.Perm (List.range n))
    (hW : 1 ≤ W) (hWn : W ≤ n) :
    (∀ x, (∃ r2, r2 < W ∧ x ∈ loaderIndices perm W r2 batch_size false) ↔ x < n) ∧
    (W ∣ n → ∀ r1 r2, r1 < W → r2 < W → r1 ≠ r2 → ∀ x,
        x ∈ loaderIndices perm W r1 batch_size false →
          x ∉ loaderIndices perm W r2 batch_size false) ∧
    (¬ W ∣ n → ∃ x r1 r2, r1 < W ∧ r2 < W ∧ r1 ≠ r2 ∧
        x ∈ samplerShard perm W r1 ∧ x ∈ samplerShard perm W r2) ∧
    (1 ≤ batch_size →
        (samplerShard perm W r).length
          ≤ (loaderIndices perm W r batch_size true).length + (batch_size - 1)) := by
  subst hn
  have hfalse : ∀ r2, loaderIndices perm W r2 batch_size false
      = samplerShard perm W r2 := by
    intro r2; simp [loaderIndices]
  refine ⟨?_, ?_, ?_, ?_⟩
  · intro x
    constructor
    · rintro ⟨r2, hr2, hx⟩
      rw [hfalse] at hx
      have hxp := mem_of_mem_samplerShard perm W r2 hW hWn hr2 hx
      exact List.mem_range.1 (hperm.mem_iff.1 hxp)
    · intro hx
      have hxp : x ∈ perm := hperm.mem_iff.2 (List.mem_range.2 hx)
      rcases exists_shard_of_mem perm W hW hWn hxp with ⟨r2, hr2, hm⟩
      exact ⟨r2, hr2, by rw [hfalse]; exact hm⟩
  · intro hd r1 r2 hr1 hr2 hne x hx1 hx2
    rw [hfalse] at hx1 hx2
    have hnodup : perm.Nodup := hperm.nodup_iff.2 (List.nodup_range _)
    exact shards_disjoint_of_dvd perm W hW hnodup hd hr1 hr2 hne hx1 hx2
  · intro hnd
    exact shards_overlap_of_not_dvd perm W hW hWn hnd
  · intro hB
    exact loader_drop_bound perm W r batch_size hB

/-- Witness for C7 (amended) on a 4-element dataset with 2 replicas. -/
theorem C7_amended_witness :
    (([1, 3, 0, 2] : List Nat).length = 4 ∧
      ([1, 3, 0, 2] : List Nat).Perm (List.range 4) ∧ 1 ≤ 2 ∧ 2 ≤ 4) ∧
    ((∀ x, (∃ r2, r2 < 2 ∧ x ∈ loaderIndices [1, 3, 0, 2] 2 r2 2 false) ↔ x < 4) ∧
     (2 ∣ 4 → ∀ r1 r2, r1 < 2 → r2 < 2 → r1 ≠ r2 → ∀ x,
         x ∈ loaderIndices [1, 3, 0, 2] 2 r1 2 false →
           x ∉ loaderIndices [1, 3, 0, 2] 2 r2 2 false) ∧
     (¬ 2 ∣ 4 → ∃ x r1 r2, r1 < 2 ∧ r2 < 2 ∧ r1 ≠ r2 ∧
         x ∈ samplerShard [1, 3, 0, 2] 2 r1 ∧ x ∈ samplerShard [1, 3, 0, 2] 2 r2) ∧
     (1 ≤ 2 →
         (samplerShard [1, 3, 0, 2] 2 0).length
           ≤ (loaderIndices [1, 3, 0, 2] 2 0 2 true).length + (2 - 1))) :=
  ⟨⟨rfl, by decide, by decide, by decide⟩,
    C7_amended [1, 3, 0, 2] 4 2 2 0 rfl (by decide) (by decide) (by decide)⟩

end FinetuneGPT2
